import Mathlib

/-!
Verification of the interactive moving-web background engine (`script.js`).

The JavaScript source is shallowly embedded here:
* JS numbers are modelled as exact rationals (`ℚ`); `Math.sqrt` is not
  rational-valued, so every function that calls it takes an explicit
  argument `sq : ℚ → ℚ` standing for `Math.sqrt`, and theorems that
  depend on the value of a square root carry the hypotheses
  `0 ≤ sq a` and `sq a * sq a = a` that the exact real square root
  satisfies at the argument `a` actually used.
* `Math.random()` is modelled as an explicit stream `rnd : ℕ → ℚ` of
  values with `0 ≤ rnd k < 1`, consumed in call order.
* The pointer (`mouse.x !== null`) is an `Option (ℚ × ℚ)`.
-/

namespace MovingWeb

/-- A grid point: mirror of the object literal pushed by `initPoints`
(`{x, y, ox, oy, vx, vy, col, row}`). -/
structure Point where
  x : ℚ
  y : ℚ
  ox : ℚ
  oy : ℚ
  vx : ℚ
  vy : ℚ
  col : ℕ
  row : ℕ
  deriving DecidableEq, Repr

/-- Mirror of `const spacing = 100`. -/
def spacing : ℚ := 100

/-- Mirror of `const maxDist = 180`. -/
def maxDist : ℚ := 180

/-- Mirror of `cols = Math.ceil(width / spacing) + 1` from `resize`.  The
value is used as the upper bound of a `for` loop, hence read as a natural
number. -/
def colCount (w : ℚ) : ℕ := (⌈w / spacing⌉ + 1).toNat

/-- Mirror of `rows = Math.ceil(height / spacing) + 1` from `resize`. -/
def rowCount (h : ℚ) : ℕ := (⌈h / spacing⌉ + 1).toNat

/-- Body of the inner loop of `initPoints` for loop indices `(i, j)`:
stagger on odd rows, jittered position, origin = position, small random
velocity.  The point at loop iteration `n = i*rows + j` consumes the
four `Math.random()` calls `4n, 4n+1, 4n+2, 4n+3` (x-jitter, y-jitter,
vx, vy, in source order). -/
def mkPoint (rnd : ℕ → ℚ) (rows i j : ℕ) : Point :=
  let n := i * rows + j
  let stagger : ℚ := if j % 2 = 0 then 0 else spacing / 2
  let x : ℚ := i * spacing + stagger + (rnd (4 * n) * 12 - 6)
  let y : ℚ := j * spacing + (rnd (4 * n + 1) * 12 - 6)
  { x := x, y := y, ox := x, oy := y
    vx := (rnd (4 * n + 2) - 1/2) * (1/25)
    vy := (rnd (4 * n + 3) - 1/2) * (1/25)
    col := i, row := j }

/-- Mirror of `initPoints`: the nested `for (i) for (j) points.push(...)`
loops. -/
def initPoints (cols rows : ℕ) (rnd : ℕ → ℚ) : List Point :=
  (List.range cols).flatMap fun i =>
    (List.range rows).map fun j => mkPoint rnd rows i j

/-- Mirror of `idx(i, j) = i * rows + j`. -/
def idx (rows i j : ℕ) : ℕ := i * rows + j

/-- Mirror of `const force = (maxDist - dist) / maxDist * 0.6` from the
mouse-repel block of `update`. -/
def repelForce (dist : ℚ) : ℚ := (maxDist - dist) / maxDist * (3/5)

/-- The body of `update`'s `for (let p of points)` loop, translated
statement by statement.  `sq` stands for `Math.sqrt`; `r1, r2` are the
two `Math.random()` calls of the jitter block; `mouse` is the pointer
state.  `dist = Math.sqrt(...) || 1` becomes `if s = 0 then 1 else s`
(the only falsy value a real square root can take is `0`). -/
def updatePoint (sq : ℚ → ℚ) (mouse : Option (ℚ × ℚ)) (r1 r2 : ℚ)
    (p : Point) : Point :=
  let x1 := p.x + p.vx
  let y1 := p.y + p.vy
  let vx1 := p.vx + (p.ox - x1) * (3/25000)
  let vy1 := p.vy + (p.oy - y1) * (3/25000)
  let vx2 := vx1 + (r1 - 1/2) * (1/12500)
  let vy2 := vy1 + (r2 - 1/2) * (1/12500)
  match mouse with
  | none => { p with x := x1, y := y1, vx := vx2, vy := vy2 }
  | some (mx, my) =>
    let dx := x1 - mx
    let dy := y1 - my
    let s := sq (dx * dx + dy * dy)
    let dist := if s = 0 then 1 else s
    if dist < maxDist then
      { p with x := x1 + dx / dist * repelForce dist * (9/10)
               y := y1 + dy / dist * repelForce dist * (9/10)
               vx := vx2, vy := vy2 }
    else
      { p with x := x1, y := y1, vx := vx2, vy := vy2 }

/-- Helper for `update`: processes the tail of the points list, `n` being
the number of points already processed (so the head consumes the
`Math.random()` calls numbered `2n` and `2n+1` of this tick). -/
def updateFrom (sq : ℚ → ℚ) (mouse : Option (ℚ × ℚ)) (rnd : ℕ → ℚ) :
    ℕ → List Point → List Point
  | _, [] => []
  | n, p :: ps =>
    updatePoint sq mouse (rnd (2 * n)) (rnd (2 * n + 1)) p ::
      updateFrom sq mouse rnd (n + 1) ps

/-- Mirror of `update()`: one physics tick over the whole points list
(the `for (let p of points)` loop, mutation rendered as a new list). -/
def update (sq : ℚ → ℚ) (mouse : Option (ℚ × ℚ)) (rnd : ℕ → ℚ)
    (pts : List Point) : List Point :=
  updateFrom sq mouse rnd 0 pts

/-! Spec-side decomposition of one tick (claim C2 compares `updatePoint`
against the composition of these four steps, each written from the
spec's step list in §4.2). -/

/-- Spec step 1: integrate position. -/
def stepIntegrate (p : Point) : Point :=
  { p with x := p.x + p.vx, y := p.y + p.vy }

/-- Spec step 2: restoring force toward the rest position. -/
def stepSpring (p : Point) : Point :=
  { p with vx := p.vx + (p.ox - p.x) * (3/25000)
           vy := p.vy + (p.oy - p.y) * (3/25000) }

/-- Spec step 3: stochastic jitter on each velocity component. -/
def stepJitter (r1 r2 : ℚ) (p : Point) : Point :=
  { p with vx := p.vx + (r1 - 1/2) * (1/12500)
           vy := p.vy + (r2 - 1/2) * (1/12500) }

/-- Spec step 4: pointer repulsion, applied only when the pointer is
present; an instantaneous positional push away from the pointer. -/
def stepRepel (sq : ℚ → ℚ) (mouse : Option (ℚ × ℚ)) (p : Point) : Point :=
  match mouse with
  | none => p
  | some (mx, my) =>
    let dx := p.x - mx
    let dy := p.y - my
    let s := sq (dx * dx + dy * dy)
    let dist := if s = 0 then 1 else s
    if dist < maxDist then
      { p with x := p.x + dx / dist * repelForce dist * (9/10)
               y := p.y + dy / dist * repelForce dist * (9/10) }
    else p

/-- Iterated physics ticks on one point with the pointer absent and the
jitter randoms pinned to `1/2`, so that the jitter term
`(r - 0.5) * 0.00008` is `0` ("jitter seeded to zero"). -/
def tickN (sq : ℚ → ℚ) : ℕ → Point → Point
  | 0, p => p
  | n + 1, p => tickN sq n (updatePoint sq none (1/2) (1/2) p)

/-- Conserved spring energy of the x-axis of a point: with
`k = 0.00012`, `d = x - ox` and `v = vx`, the form `k·d² + k·d·v + v²`. -/
def energyX (p : Point) : ℚ :=
  let d := p.x - p.ox
  (3/25000) * d * d + (3/25000) * d * p.vx + p.vx * p.vx

/-- Conserved spring energy of the y-axis of a point. -/
def energyY (p : Point) : ℚ :=
  let d := p.y - p.oy
  (3/25000) * d * d + (3/25000) * d * p.vy + p.vy * p.vy

/-! Renderer: the edge pass of `draw`. -/

/-- The neighbor list built for the point with lattice coordinates
`(i, j)` in `draw` (lines 112-116), expressed in lattice coordinates:
right, bottom, bottom-right, top-right, each guarded to stay in-grid. -/
def neighbors (cols rows i j : ℕ) : List (ℕ × ℕ) :=
  (if i + 1 < cols then [(i + 1, j)] else []) ++
  (if j + 1 < rows then [(i, j + 1)] else []) ++
  (if i + 1 < cols ∧ j + 1 < rows then [(i + 1, j + 1)] else []) ++
  (if i + 1 < cols ∧ 1 ≤ j then [(i + 1, j - 1)] else [])

/-- All candidate edges of one frame, as (source, target) lattice
pairs, in the iteration order of `draw` (points are stored column-major,
`k = i*rows + j`). -/
def frameEdges (cols rows : ℕ) : List ((ℕ × ℕ) × (ℕ × ℕ)) :=
  (List.range cols).flatMap fun i =>
    (List.range rows).flatMap fun j =>
      (neighbors cols rows i j).map fun t => ((i, j), t)

/-- Two (source, target) candidate edges are the same undirected edge. -/
def sameEdge (e f : (ℕ × ℕ) × (ℕ × ℕ)) : Prop :=
  (e.1 = f.1 ∧ e.2 = f.2) ∨ (e.1 = f.2 ∧ e.2 = f.1)

instance : DecidablePred fun ef : ((ℕ × ℕ) × (ℕ × ℕ)) × ((ℕ × ℕ) × (ℕ × ℕ)) =>
    sameEdge ef.1 ef.2 := fun _ => by unfold sameEdge; infer_instance

/-- Opacity used for the stroke style of an edge in `draw`:
`alpha * 0.32` with `alpha = 1 - dist / maxDist`. -/
def lineAlpha (dist : ℚ) : ℚ := (1 - dist / maxDist) * (8/25)

/-- The distance test and stroke of one candidate edge in `draw`
(lines 121-135): Euclidean distance between the CURRENT positions of
`p` and `q`; `some alpha` when a line is stroked with opacity `alpha`,
`none` when the edge is skipped. -/
def edgeRender (sq : ℚ → ℚ) (p q : Point) : Option ℚ :=
  let dx := p.x - q.x
  let dy := p.y - q.y
  let dist := sq (dx * dx + dy * dy)
  if dist < maxDist then some (lineAlpha dist) else none

/-! Frame scheduler: `animate`. -/

/-- One `animate` callback.  State: the global `frameCount` and
`lastScrollTime`; input: `now = Date.now()`.  Returns the new frame
count, whether `update(); draw();` ran, and whether
`requestAnimationFrame` was called again (the last line runs
unconditionally, so this component is always `true`). -/
def animateStep (frameCount : ℕ) (lastScrollTime now : ℤ) :
    ℕ × Bool × Bool :=
  let frameCount' := frameCount + 1
  let scrolling := now - lastScrollTime < 160
  let skip : ℕ := if scrolling then 3 else 0
  (frameCount', decide (frameCount' % (skip + 1) = 0), true)

/-- Run successive `animate` callbacks at the given times, returning the
final frame count and, in order, whether each callback performed
`update(); draw();`. -/
def animateRun (frameCount : ℕ) (lastScrollTime : ℤ) :
    List ℤ → ℕ × List Bool
  | [] => (frameCount, [])
  | now :: rest =>
    let s := animateStep frameCount lastScrollTime now
    let r := animateRun s.1 lastScrollTime rest
    (r.1, s.2.1 :: r.2)

/-! Concrete inputs used by witness theorems. -/

/-- A concrete point displaced from its rest position. -/
def pA : Point :=
  { x := 3, y := 4, ox := 0, oy := 0, vx := 0, vy := 0, col := 0, row := 0 }

/-- A concrete point sitting exactly at its rest position with zero
velocity. -/
def pB : Point :=
  { x := 1, y := 0, ox := 0, oy := 0, vx := 0, vy := 0, col := 0, row := 0 }

/-- A concrete stand-in for `Math.sqrt` that is exact at the arguments
`0` and `25` used by the witnesses. -/
def sqA : ℚ → ℚ := fun a => if a = 25 then 5 else 0

/-! Claim theorems. -/

/-- Helper for C10: one `updatePoint` call never touches `ox`, `oy`,
`col` or `row`. -/
theorem updatePoint_preserves (sq : ℚ → ℚ) (mouse : Option (ℚ × ℚ))
    (r1 r2 : ℚ) (p : Point) :
    (updatePoint sq mouse r1 r2 p).ox = p.ox ∧
    (updatePoint sq mouse r1 r2 p).oy = p.oy ∧
    (updatePoint sq mouse r1 r2 p).col = p.col ∧
    (updatePoint sq mouse r1 r2 p).row = p.row := by
  rcases mouse with _ | ⟨mx, my⟩
  · simp [updatePoint]
  · simp only [updatePoint]
    split_ifs <;> simp

/-- Helper for C10: `updateFrom` preserves the per-point frame fields at
every starting counter. -/
theorem updateFrom_forall₂ (sq : ℚ → ℚ) (mouse : Option (ℚ × ℚ))
    (rnd : ℕ → ℚ) (pts : List Point) : ∀ n : ℕ,
    List.Forall₂
      (fun p q : Point =>
        q.ox = p.ox ∧ q.oy = p.oy ∧ q.col = p.col ∧ q.row = p.row)
      pts (updateFrom sq mouse rnd n pts) := by
  induction pts with
  | nil => intro n; exact List.Forall₂.nil
  | cons p ps ih =>
    intro n
    refine List.Forall₂.cons ?_ (ih (n + 1))
    obtain ⟨h1, h2, h3, h4⟩ :=
      updatePoint_preserves sq mouse (rnd (2 * n)) (rnd (2 * n + 1)) p
    exact ⟨h1, h2, h3, h4⟩

/-- C10: one physics tick mutates only `x`, `y`, `vx`, `vy`: every
point's `ox`, `oy`, `col`, `row` fields are unchanged, and the tick
neither adds nor removes points (same length, pointwise correspondence
in order). -/
theorem tick_mutates_only_motion_fields (sq : ℚ → ℚ)
    (mouse : Option (ℚ × ℚ)) (rnd : ℕ → ℚ) (pts : List Point) :
    (update sq mouse rnd pts).length = pts.length ∧
    List.Forall₂
      (fun p q : Point =>
        q.ox = p.ox ∧ q.oy = p.oy ∧ q.col = p.col ∧ q.row = p.row)
      pts (update sq mouse rnd pts) := by
  have h := updateFrom_forall₂ sq mouse rnd pts 0
  exact ⟨(List.Forall₂.length_eq h).symm, h⟩

/-- C2: a tick processes each point in this exact order — position
integration, then restoring force (computed from the already-updated
position), then jitter on each velocity component, then pointer
repulsion applied only when the pointer is present; and for any random
draw in `[0,1)` the jitter added to a velocity component lies in
`[-0.00004, +0.00004]`. -/
theorem tick_step_order (sq : ℚ → ℚ) (mouse : Option (ℚ × ℚ))
    (r1 r2 : ℚ) (p : Point) :
    updatePoint sq mouse r1 r2 p =
      stepRepel sq mouse (stepJitter r1 r2 (stepSpring (stepIntegrate p))) ∧
    updatePoint sq none r1 r2 p =
      stepJitter r1 r2 (stepSpring (stepIntegrate p)) ∧
    (∀ q : Point,
      (stepJitter r1 r2 q).vx - q.vx = (r1 - 1/2) * (1/12500) ∧
      (stepJitter r1 r2 q).vy - q.vy = (r2 - 1/2) * (1/12500)) ∧
    (0 ≤ r1 → r1 < 1 →
      (r1 - 1/2) * (1/12500) ∈ Set.Icc (-(1/25000) : ℚ) (1/25000)) ∧
    (0 ≤ r2 → r2 < 1 →
      (r2 - 1/2) * (1/12500) ∈ Set.Icc (-(1/25000) : ℚ) (1/25000)) := by
  refine ⟨?_, ?_, ?_, ?_, ?_⟩
  · rcases mouse with _ | ⟨mx, my⟩
    · rfl
    · simp only [updatePoint, stepRepel, stepJitter, stepSpring, stepIntegrate]
  · rfl
  · intro q; constructor <;> simp [stepJitter]
  · intro h0 h1
    simp only [Set.mem_Icc]
    constructor <;> nlinarith
  · intro h0 h1
    simp only [Set.mem_Icc]
    constructor <;> nlinarith

/-- Witness for C2 at a concrete input. -/
theorem tick_step_order_witness :
    updatePoint sqA none 0 (1/2) pA =
      stepJitter 0 (1/2) (stepSpring (stepIntegrate pA)) ∧
    ((0 : ℚ) - 1/2) * (1/12500) ∈ Set.Icc (-(1/25000) : ℚ) (1/25000) := by
  refine ⟨(tick_step_order sqA none 0 (1/2) pA).2.1, ?_⟩
  exact (tick_step_order sqA none 0 (1/2) pA).2.2.2.1 le_rfl (by norm_num)

/-- C3 counterexample: for the point `pB` resting displaced one unit
from its origin with zero velocity, one tick (pointer absent, jitter
zeroed) leaves `|x-ox| + |y-oy|` unchanged at `1`, so repeated ticks do
NOT strictly decrease that quantity. -/
theorem rest_seeking_counterexample :
    ¬ (|(tickN (fun _ => 0) 1 pB).x - (tickN (fun _ => 0) 1 pB).ox| +
       |(tickN (fun _ => 0) 1 pB).y - (tickN (fun _ => 0) 1 pB).oy| <
       |pB.x - pB.ox| + |pB.y - pB.oy|) := by
  have h : tickN (fun _ : ℚ => (0 : ℚ)) 1 pB =
      updatePoint (fun _ => 0) none (1/2) (1/2) pB := rfl
  rw [h]
  norm_num [updatePoint, pB]

/-- Helper for C3: one jitter-free, pointer-free tick conserves the
per-axis spring energy exactly. -/
theorem energy_tick (sq : ℚ → ℚ) (p : Point) :
    energyX (updatePoint sq none (1/2) (1/2) p) = energyX p ∧
    energyY (updatePoint sq none (1/2) (1/2) p) = energyY p := by
  constructor <;> · simp only [updatePoint, energyX, energyY]; ring

/-- Helper for C3: the energy form dominates the squared displacement. -/
theorem energy_lower (q : Point) :
    (q.x - q.ox) * (q.x - q.ox) * (299991/2500000000) ≤ energyX q ∧
    (q.y - q.oy) * (q.y - q.oy) * (299991/2500000000) ≤ energyY q := by
  constructor
  · simp only [energyX]
    nlinarith [sq_nonneg (q.vx + (3/50000) * (q.x - q.ox))]
  · simp only [energyY]
    nlinarith [sq_nonneg (q.vy + (3/50000) * (q.y - q.oy))]

/-- C3 amended: with the pointer absent and jitter zeroed, the tick does
not damp the motion at all — the per-axis quadratic form
`k·d² + k·d·v + v²` (with `k = 0.00012`, `d` the displacement from rest
and `v` the velocity) is conserved exactly by every number of ticks, and
since that form dominates `k·(1 - k/4)` times the squared displacement,
the displacement from rest stays bounded for all time (the motion never
diverges, but it also never decays to zero). -/
theorem rest_seeking_energy (sq : ℚ → ℚ) (p : Point) (n : ℕ) :
    energyX (tickN sq n p) = energyX p ∧
    energyY (tickN sq n p) = energyY p ∧
    ((tickN sq n p).x - (tickN sq n p).ox) *
      ((tickN sq n p).x - (tickN sq n p).ox) * (299991/2500000000)
      ≤ energyX p ∧
    ((tickN sq n p).y - (tickN sq n p).oy) *
      ((tickN sq n p).y - (tickN sq n p).oy) * (299991/2500000000)
      ≤ energyY p := by
  have hc : ∀ m : ℕ, ∀ q : Point,
      energyX (tickN sq m q) = energyX q ∧
      energyY (tickN sq m q) = energyY q := by
    intro m
    induction m with
    | zero => intro q; exact ⟨rfl, rfl⟩
    | succ m ih =>
      intro q
      have h1 := ih (updatePoint sq none (1/2) (1/2) q)
      have h2 := energy_tick sq q
      exact ⟨by rw [tickN, h1.1, h2.1], by rw [tickN, h1.2, h2.2]⟩
  obtain ⟨hx, hy⟩ := hc n p
  obtain ⟨lx, ly⟩ := energy_lower (tickN sq n p)
  exact ⟨hx, hy, hx ▸ lx, hy ▸ ly⟩

/-- C4 counterexample: scroll at time `0` with the global frame counter
at `2`, then four callbacks at times `10, 20, 30, 40` (all within the
160 ms scroll window).  The work pattern is
`[false, true, false, false]` — the SECOND post-scroll tick performs
`update(); draw();`, not the fourth, because the test is
`frameCount % 4 === 0` on the global counter, which does not restart at
the scroll event. -/
theorem scroll_throttle_counterexample :
    ((10 : ℤ) - 0 < 160 ∧ (20 : ℤ) - 0 < 160 ∧
     (30 : ℤ) - 0 < 160 ∧ (40 : ℤ) - 0 < 160) ∧
    (animateRun 2 0 [10, 20, 30, 40]).2 = [false, true, false, false] ∧
    [false, true, false, false] ≠ [false, false, false, true] := by
  refine ⟨by decide, by decide, by decide⟩

/-- Helper for C4: under sustained scrolling, four successive callbacks
test the global counter against divisibility by 4. -/
theorem animateRun_scroll (fc : ℕ) (last t1 t2 t3 t4 : ℤ)
    (h1 : t1 - last < 160) (h2 : t2 - last < 160)
    (h3 : t3 - last < 160) (h4 : t4 - last < 160) :
    (animateRun fc last [t1, t2, t3, t4]).2 =
      [decide ((fc + 1) % 4 = 0), decide ((fc + 2) % 4 = 0),
       decide ((fc + 3) % 4 = 0), decide ((fc + 4) % 4 = 0)] := by
  simp [animateRun, animateStep, h1, h2, h3, h4]
  omega

/-- Helper for C4: among four consecutive global counter values, exactly
one is divisible by 4. -/
theorem works_count (fc : ℕ) :
    ([decide ((fc + 1) % 4 = 0), decide ((fc + 2) % 4 = 0),
      decide ((fc + 3) % 4 = 0), decide ((fc + 4) % 4 = 0)] :
        List Bool).count true = 1 := by
  have h : fc % 4 = 0 ∨ fc % 4 = 1 ∨ fc % 4 = 2 ∨ fc % 4 = 3 := by omega
  rcases h with h | h | h | h
  · have e1 : (fc + 1) % 4 = 1 := by omega
    have e2 : (fc + 2) % 4 = 2 := by omega
    have e3 : (fc + 3) % 4 = 3 := by omega
    have e4 : (fc + 4) % 4 = 0 := by omega
    rw [e1, e2, e3, e4]; decide
  · have e1 : (fc + 1) % 4 = 2 := by omega
    have e2 : (fc + 2) % 4 = 3 := by omega
    have e3 : (fc + 3) % 4 = 0 := by omega
    have e4 : (fc + 4) % 4 = 1 := by omega
    rw [e1, e2, e3, e4]; decide
  · have e1 : (fc + 1) % 4 = 3 := by omega
    have e2 : (fc + 2) % 4 = 0 := by omega
    have e3 : (fc + 3) % 4 = 1 := by omega
    have e4 : (fc + 4) % 4 = 2 := by omega
    rw [e1, e2, e3, e4]; decide
  · have e1 : (fc + 1) % 4 = 0 := by omega
    have e2 : (fc + 2) % 4 = 1 := by omega
    have e3 : (fc + 3) % 4 = 2 := by omega
    have e4 : (fc + 4) % 4 = 3 := by omega
    rw [e1, e2, e3, e4]; decide

/-- C4 amended: each callback increments the global frame counter and
computes `scrolling = (now - lastScrollTimestamp) < 160`; while
scrolling, `update(); draw();` runs exactly on the callbacks whose
GLOBAL frame counter is divisible by 4 (not counted from the post-scroll
frame), otherwise it runs every frame; among any four consecutive
callbacks within the scroll window exactly one performs the work — it is
the fourth post-scroll tick precisely when the counter was divisible by
4 at the scroll event — and the next callback is re-requested on every
tick regardless. -/
theorem animate_schedule (fc : ℕ) (last now : ℤ) :
    (animateStep fc last now).1 = fc + 1 ∧
    (animateStep fc last now).2.2 = true ∧
    (now - last < 160 →
      ((animateStep fc last now).2.1 = true ↔ (fc + 1) % 4 = 0)) ∧
    (¬ now - last < 160 → (animateStep fc last now).2.1 = true) ∧
    (∀ t1 t2 t3 t4 : ℤ, t1 - last < 160 → t2 - last < 160 →
      t3 - last < 160 → t4 - last < 160 →
      (animateRun fc last [t1, t2, t3, t4]).2.count true = 1) ∧
    (fc % 4 = 0 → ∀ t1 t2 t3 t4 : ℤ, t1 - last < 160 → t2 - last < 160 →
      t3 - last < 160 → t4 - last < 160 →
      (animateRun fc last [t1, t2, t3, t4]).2 =
        [false, false, false, true]) := by
  refine ⟨rfl, rfl, ?_, ?_, ?_, ?_⟩
  · intro h; simp [animateStep, h]
  · intro h; simp [animateStep, h, Nat.mod_one]
  · intro t1 t2 t3 t4 h1 h2 h3 h4
    rw [animateRun_scroll fc last t1 t2 t3 t4 h1 h2 h3 h4]
    exact works_count fc
  · intro h t1 t2 t3 t4 h1 h2 h3 h4
    rw [animateRun_scroll fc last t1 t2 t3 t4 h1 h2 h3 h4]
    have e1 : (fc + 1) % 4 = 1 := by omega
    have e2 : (fc + 2) % 4 = 2 := by omega
    have e3 : (fc + 3) % 4 = 3 := by omega
    have e4 : (fc + 4) % 4 = 0 := by omega
    rw [e1, e2, e3, e4]; decide

/-- Witness for C4 (amended) at a concrete input. -/
theorem animate_schedule_witness :
    (animateStep 2 0 10).2.2 = true ∧
    (animateRun 2 0 [10, 20, 30, 40]).2.count true = 1 := by
  refine ⟨(animate_schedule 2 0 10).2.1, ?_⟩
  exact (animate_schedule 2 0 10).2.2.2.2.1 10 20 30 40
    (by decide) (by decide) (by decide) (by decide)

/-- C5: when the pointer sits exactly at a point's position the raw
distance is `0`, the `|| 1` guard makes the divisor `1`, the force
evaluates to `(180-1)/180 · 0.6 = 179/300` with
`force · 0.9 = 537/1000 = 0.537`, and the resulting displacement is
`0.537 · (dx/1, dy/1) = (0, 0)` — a finite value, with no division by
zero anywhere (the computation is total). -/
theorem repel_zero_dist (sq : ℚ → ℚ) (p : Point)
    (h1 : sq 0 * sq 0 = 0) :
    (if sq ((p.x - p.x) * (p.x - p.x) + (p.y - p.y) * (p.y - p.y)) = 0
      then (1 : ℚ)
      else sq ((p.x - p.x) * (p.x - p.x) + (p.y - p.y) * (p.y - p.y))) = 1 ∧
    repelForce 1 = 179/300 ∧
    repelForce 1 * (9/10) = 537/1000 ∧
    (stepRepel sq (some (p.x, p.y)) p).x = p.x + (p.x - p.x) / 1 * (537/1000) ∧
    (stepRepel sq (some (p.x, p.y)) p).y = p.y + (p.y - p.y) / 1 * (537/1000) ∧
    stepRepel sq (some (p.x, p.y)) p = p := by
  have hs : sq 0 = 0 := by
    have := mul_self_eq_zero.mp h1
    exact this
  have e : (p.x - p.x) * (p.x - p.x) + (p.y - p.y) * (p.y - p.y) = (0 : ℚ) := by
    ring
  have hrep : stepRepel sq (some (p.x, p.y)) p = p := by
    simp only [stepRepel, e, hs]
    norm_num [maxDist]
  refine ⟨by rw [e, hs]; simp, by norm_num [repelForce, maxDist],
    by norm_num [repelForce, maxDist], ?_, ?_, hrep⟩
  · rw [hrep]; ring
  · rw [hrep]; ring

/-- Witness for C5 at a concrete input. -/
theorem repel_zero_dist_witness :
    stepRepel sqA (some (pA.x, pA.y)) pA = pA ∧ repelForce 1 = 179/300 := by
  refine ⟨(repel_zero_dist sqA pA (by norm_num [sqA])).2.2.2.2.2,
    (repel_zero_dist sqA pA (by norm_num [sqA])).2.1⟩

/-- C6: for any point and any pointer position, the positional
displacement of the repulsion step has squared magnitude at most
`(0.6 · 0.9)² = 0.54²`; the repulsion leaves the velocity untouched
(position-only push), does nothing when the distance is at least
`maxDist = 180`, and the force formula is
`(maxDist - dist)/maxDist · 0.6`. -/
theorem repel_displacement_bounded (sq : ℚ → ℚ) (mx my : ℚ) (p : Point)
    (h0 : 0 ≤ sq ((p.x - mx) * (p.x - mx) + (p.y - my) * (p.y - my)))
    (h1 : sq ((p.x - mx) * (p.x - mx) + (p.y - my) * (p.y - my)) *
            sq ((p.x - mx) * (p.x - mx) + (p.y - my) * (p.y - my)) =
          (p.x - mx) * (p.x - mx) + (p.y - my) * (p.y - my)) :
    ((stepRepel sq (some (mx, my)) p).x - p.x) *
        ((stepRepel sq (some (mx, my)) p).x - p.x) +
      ((stepRepel sq (some (mx, my)) p).y - p.y) *
        ((stepRepel sq (some (mx, my)) p).y - p.y) ≤ (27/50) * (27/50) ∧
    (stepRepel sq (some (mx, my)) p).vx = p.vx ∧
    (stepRepel sq (some (mx, my)) p).vy = p.vy ∧
    (maxDist ≤ sq ((p.x - mx) * (p.x - mx) + (p.y - my) * (p.y - my)) →
      stepRepel sq (some (mx, my)) p = p) ∧
    (∀ d : ℚ, repelForce d = (maxDist - d) / maxDist * (3/5)) := by
  set dx := p.x - mx with hdx
  set dy := p.y - my with hdy
  set s := sq (dx * dx + dy * dy) with hsdef
  by_cases hz : s = 0
  · -- raw distance 0: both offsets vanish, displacement is 0
    have hD : dx * dx + dy * dy = 0 := by rw [← h1, hz, mul_zero]
    have hdx0 : dx = 0 := by
      have : dx * dx = 0 := by nlinarith [mul_self_nonneg dx, mul_self_nonneg dy]
      exact mul_self_eq_zero.mp this
    have hdy0 : dy = 0 := by
      have : dy * dy = 0 := by nlinarith [mul_self_nonneg dx, mul_self_nonneg dy]
      exact mul_self_eq_zero.mp this
    have hrep : stepRepel sq (some (mx, my)) p = p := by
      simp only [stepRepel, ← hdx, ← hdy, ← hsdef, hz]
      norm_num [maxDist, hdx0, hdy0]
    rw [hrep]
    refine ⟨by norm_num, rfl, rfl, fun _ => rfl, fun d => rfl⟩
  · -- positive raw distance: the guard leaves it unchanged
    have hpos : 0 < s := lt_of_le_of_ne h0 (Ne.symm hz)
    by_cases hlt : s < maxDist
    · have hrep : stepRepel sq (some (mx, my)) p =
          { p with x := p.x + dx / s * repelForce s * (9/10)
                   y := p.y + dy / s * repelForce s * (9/10) } := by
        simp only [stepRepel, ← hdx, ← hdy, ← hsdef]
        rw [if_neg hz, if_pos hlt]
      refine ⟨?_, by rw [hrep], by rw [hrep], ?_, fun d => rfl⟩
      · rw [hrep]
        have hf : repelForce s = (180 - s) / 180 * (3/5) := by
          simp [repelForce, maxDist]
        have key : (p.x + dx / s * repelForce s * (9/10) - p.x) *
              (p.x + dx / s * repelForce s * (9/10) - p.x) +
            (p.y + dy / s * repelForce s * (9/10) - p.y) *
              (p.y + dy / s * repelForce s * (9/10) - p.y) =
            repelForce s * repelForce s * (81/100) *
              ((dx * dx + dy * dy) / (s * s)) := by
          ring
        rw [key, ← h1, div_self (mul_ne_zero hz hz), mul_one]
        rw [hf]
        have h180 : s < 180 := by
          simpa [maxDist] using hlt
        nlinarith [hpos, h180]
      · intro hge
        exact absurd hlt (not_lt.mpr (by simpa [← hsdef] using hge))
    · have hrep : stepRepel sq (some (mx, my)) p = p := by
        simp only [stepRepel, ← hdx, ← hdy, ← hsdef]
        rw [if_neg hz, if_neg hlt]
      rw [hrep]
      refine ⟨by norm_num, rfl, rfl, fun _ => rfl, fun d => rfl⟩

/-- Witness for C6 at a concrete input (point at distance 5 from the
pointer). -/
theorem repel_displacement_bounded_witness :
    ((stepRepel sqA (some (0, 0)) pA).x - pA.x) *
        ((stepRepel sqA (some (0, 0)) pA).x - pA.x) +
      ((stepRepel sqA (some (0, 0)) pA).y - pA.y) *
        ((stepRepel sqA (some (0, 0)) pA).y - pA.y) ≤ (27/50) * (27/50) ∧
    (stepRepel sqA (some (0, 0)) pA).vx = pA.vx := by
  refine ⟨(repel_displacement_bounded sqA 0 0 pA ?_ ?_).1,
    (repel_displacement_bounded sqA 0 0 pA ?_ ?_).2.1⟩ <;> norm_num [sqA, pA]

/-- C8: a candidate edge is stroked exactly when the Euclidean distance
between the two CURRENT positions is below `maxDist`, with opacity
`(1 - dist/maxDist) · 0.32`; at `dist = maxDist` the alpha formula gives
`0` and the edge is not stroked at all; at `dist = 0` the edge is
stroked at the maximum opacity `0.32 = 8/25`. -/
theorem edge_render_boundary (sq : ℚ → ℚ) (p q : Point)
    (h0 : 0 ≤ sq ((p.x - q.x) * (p.x - q.x) + (p.y - q.y) * (p.y - q.y)))
    (h1 : sq ((p.x - q.x) * (p.x - q.x) + (p.y - q.y) * (p.y - q.y)) *
            sq ((p.x - q.x) * (p.x - q.x) + (p.y - q.y) * (p.y - q.y)) =
          (p.x - q.x) * (p.x - q.x) + (p.y - q.y) * (p.y - q.y)) :
    (edgeRender sq p q =
      if sq ((p.x - q.x) * (p.x - q.x) + (p.y - q.y) * (p.y - q.y)) < maxDist
      then some (lineAlpha
        (sq ((p.x - q.x) * (p.x - q.x) + (p.y - q.y) * (p.y - q.y))))
      else none) ∧
    ((p.x - q.x) * (p.x - q.x) + (p.y - q.y) * (p.y - q.y) =
        maxDist * maxDist → edgeRender sq p q = none) ∧
    ((p.x - q.x) * (p.x - q.x) + (p.y - q.y) * (p.y - q.y) = 0 →
      edgeRender sq p q = some (8/25)) ∧
    lineAlpha maxDist = 0 ∧ lineAlpha 0 = 8/25 := by
  set s := sq ((p.x - q.x) * (p.x - q.x) + (p.y - q.y) * (p.y - q.y))
    with hsdef
  refine ⟨rfl, ?_, ?_, by norm_num [lineAlpha, maxDist],
    by norm_num [lineAlpha, maxDist]⟩
  · intro hD
    have hs180 : s = 180 := by
      have hsq : s * s = 180 * 180 := by
        rw [h1]
        simpa [maxDist] using hD
      have hfac : (s - 180) * (s + 180) = 0 := by nlinarith [hsq]
      rcases mul_eq_zero.mp hfac with h | h
      · linarith
      · exfalso
        have : s = -180 := by linarith
        rw [this] at h0
        norm_num at h0
    have hnot : ¬ s < maxDist := by
      rw [hs180]
      norm_num [maxDist]
    simp only [edgeRender, ← hsdef]
    rw [if_neg hnot]
  · intro hD
    have hs0 : s = 0 := by
      have hsq : s * s = 0 := by rw [h1]; exact hD
      exact mul_self_eq_zero.mp hsq
    have hlt : s < maxDist := by
      rw [hs0]
      norm_num [maxDist]
    simp only [edgeRender, ← hsdef]
    rw [if_pos hlt, hs0]
    norm_num [lineAlpha, maxDist]

/-- Witness for C8 at a concrete input (the two endpoints coincide). -/
theorem edge_render_boundary_witness :
    edgeRender sqA pA pA = some (8/25) ∧ lineAlpha maxDist = 0 := by
  refine ⟨(edge_render_boundary sqA pA pA ?_ ?_).2.2.1 (by norm_num [pA]),
    (edge_render_boundary sqA pA pA ?_ ?_).2.2.2.1⟩ <;> norm_num [sqA, pA]

/-- Helper for C1: the grid always holds exactly `cols * rows` points. -/
theorem initPoints_length (cols rows : ℕ) (rnd : ℕ → ℚ) :
    (initPoints cols rows rnd).length = cols * rows := by
  induction cols with
  | zero => simp [initPoints]
  | succ c ih =>
    simp only [initPoints, List.range_succ, List.flatMap_append,
      List.length_append] at ih ⊢
    simp only [List.flatMap_cons, List.flatMap_nil, List.append_nil,
      List.length_map]
    rw [ih]
    simp [List.length_range]
    ring

/-- Helper for C1 and C9: membership in the generated grid. -/
theorem mem_initPoints {cols rows : ℕ} {rnd : ℕ → ℚ} {p : Point} :
    p ∈ initPoints cols rows rnd ↔
      ∃ i, i < cols ∧ ∃ j, j < rows ∧ mkPoint rnd rows i j = p := by
  simp [initPoints, List.mem_flatMap, List.mem_map, List.mem_range]

/-- Helper for C1: the lattice coordinates of the generated points, in
generation order. -/
theorem initPoints_map_colrow (cols rows : ℕ) (rnd : ℕ → ℚ) :
    (initPoints cols rows rnd).map (fun p => (p.col, p.row)) =
      (List.range cols).flatMap fun i =>
        (List.range rows).map fun j => (i, j) := by
  simp only [initPoints, List.map_flatMap, List.map_map]
  rfl

/-- Helper for C1: the coordinate list carries no duplicate pair. -/
theorem colrow_nodup (cols rows : ℕ) :
    ((List.range cols).flatMap fun i =>
      (List.range rows).map fun j => ((i : ℕ), j)).Nodup := by
  apply List.nodup_flatMap.mpr
  constructor
  · intro i _
    exact (List.nodup_range rows).map fun a b hab => by simpa using hab
  · have hlt := List.pairwise_lt_range cols
    refine hlt.imp ?_
    intro a b hab
    intro x hxa hxb
    obtain ⟨j, _, rfl⟩ := List.mem_map.mp hxa
    obtain ⟨j', _, he⟩ := List.mem_map.mp hxb
    have hba : b = a := congrArg Prod.fst he
    exact absurd hba (Nat.ne_of_gt hab)

/-- C1: for every viewport size `(w, h)` and the fixed spacing, the grid
has `ceil(w/s) + 1` columns and `ceil(h/s) + 1` rows, exactly
`colCount * rowCount` points, every point in bounds, all `(col, row)`
pairs distinct; for `w = 800`, `h = 600` this gives `9 × 7 = 63`
points. -/
theorem grid_shape (w h : ℚ) (rnd : ℕ → ℚ) (hw : 0 ≤ w) (hh : 0 ≤ h) :
    ((colCount w : ℤ) = ⌈w / spacing⌉ + 1 ∧
     (rowCount h : ℤ) = ⌈h / spacing⌉ + 1) ∧
    (initPoints (colCount w) (rowCount h) rnd).length =
      colCount w * rowCount h ∧
    (∀ p ∈ initPoints (colCount w) (rowCount h) rnd,
      p.col < colCount w ∧ p.row < rowCount h) ∧
    List.Pairwise (fun p q : Point => (p.col, p.row) ≠ (q.col, q.row))
      (initPoints (colCount w) (rowCount h) rnd) ∧
    (colCount 800 = 9 ∧ rowCount 600 = 7 ∧
      (initPoints (colCount 800) (rowCount 600) rnd).length = 63) := by
  refine ⟨⟨?_, ?_⟩, initPoints_length _ _ _, ?_, ?_, ?_, ?_, ?_⟩
  · have h1 : 0 ≤ ⌈w / spacing⌉ :=
      Int.ceil_nonneg (div_nonneg hw (by norm_num [spacing]))
    simp only [colCount]
    omega
  · have h1 : 0 ≤ ⌈h / spacing⌉ :=
      Int.ceil_nonneg (div_nonneg hh (by norm_num [spacing]))
    simp only [rowCount]
    omega
  · intro p hp
    obtain ⟨i, hi, j, hj, rfl⟩ := mem_initPoints.mp hp
    exact ⟨hi, hj⟩
  · have hmap := initPoints_map_colrow (colCount w) (rowCount h) rnd
    have hnd := colrow_nodup (colCount w) (rowCount h)
    rw [← hmap] at hnd
    rw [List.Nodup, List.pairwise_map] at hnd
    exact hnd
  · have e : (800 : ℚ) / spacing = ((8 : ℤ) : ℚ) := by norm_num [spacing]
    simp [colCount, e, Int.ceil_intCast]
  · have e : (600 : ℚ) / spacing = ((6 : ℤ) : ℚ) := by norm_num [spacing]
    simp [rowCount, e, Int.ceil_intCast]
  · have e8 : (800 : ℚ) / spacing = ((8 : ℤ) : ℚ) := by norm_num [spacing]
    have e6 : (600 : ℚ) / spacing = ((6 : ℤ) : ℚ) := by norm_num [spacing]
    rw [initPoints_length]
    simp [colCount, rowCount, e8, e6, Int.ceil_intCast]

/-- Witness for C1 at the concrete viewport `800 × 600`. -/
theorem grid_shape_witness :
    colCount 800 = 9 ∧ rowCount 600 = 7 ∧
    (initPoints (colCount 800) (rowCount 600) (fun _ => 1/2)).length = 63 := by
  exact (grid_shape 800 600 (fun _ => 1/2) (by norm_num) (by norm_num)).2.2.2.2

/-- C9: every generated point has its stagger of `spacing/2` exactly on
odd rows, position = lattice base plus an axis-independent jitter in
`[-6, 6]`, rest position equal to the initial position (hence zero
initial displacement), and initial velocity components in
`[-0.02, 0.02]`. -/
theorem initPoints_pointwise (cols rows : ℕ) (rnd : ℕ → ℚ)
    (hr : ∀ k, 0 ≤ rnd k ∧ rnd k < 1) :
    ∀ p ∈ initPoints cols rows rnd,
      p.ox = p.x ∧ p.oy = p.y ∧
      (∃ jx, jx ∈ Set.Icc (-6 : ℚ) 6 ∧
        p.x = p.col * spacing +
          (if p.row % 2 = 0 then 0 else spacing / 2) + jx) ∧
      (∃ jy, jy ∈ Set.Icc (-6 : ℚ) 6 ∧ p.y = p.row * spacing + jy) ∧
      p.vx ∈ Set.Icc (-(1/50) : ℚ) (1/50) ∧
      p.vy ∈ Set.Icc (-(1/50) : ℚ) (1/50) ∧
      |p.x - p.ox| ≤ 6 ∧ |p.y - p.oy| ≤ 6 := by
  intro p hp
  obtain ⟨i, hi, j, hj, rfl⟩ := mem_initPoints.mp hp
  obtain ⟨ha0, ha1⟩ := hr (4 * (i * rows + j))
  obtain ⟨hb0, hb1⟩ := hr (4 * (i * rows + j) + 1)
  obtain ⟨hc0, hc1⟩ := hr (4 * (i * rows + j) + 2)
  obtain ⟨hd0, hd1⟩ := hr (4 * (i * rows + j) + 3)
  refine ⟨rfl, rfl,
    ⟨rnd (4 * (i * rows + j)) * 12 - 6, ⟨by linarith, by linarith⟩,
      by simp [mkPoint]⟩,
    ⟨rnd (4 * (i * rows + j) + 1) * 12 - 6, ⟨by linarith, by linarith⟩,
      by simp [mkPoint]⟩,
    ?_, ?_, by simp [mkPoint], by simp [mkPoint]⟩
  · simp only [mkPoint, Set.mem_Icc]
    constructor <;> linarith
  · simp only [mkPoint, Set.mem_Icc]
    constructor <;> linarith

/-- Witness for C9 at a concrete input. -/
theorem initPoints_pointwise_witness :
    (mkPoint (fun _ => 1/2) 1 0 0).ox = (mkPoint (fun _ => 1/2) 1 0 0).x ∧
    (mkPoint (fun _ => 1/2) 1 0 0).vx ∈ Set.Icc (-(1/50) : ℚ) (1/50) := by
  have hmem : mkPoint (fun _ => 1/2) 1 0 0 ∈ initPoints 1 1 (fun _ => 1/2) := by
    apply mem_initPoints.mpr
    exact ⟨0, by norm_num, 0, by norm_num, rfl⟩
  have h := initPoints_pointwise 1 1 (fun _ => 1/2)
    (fun k => by norm_num) _ hmem
  exact ⟨h.1, h.2.2.2.2.1⟩

/-- Helper for C7: membership in a conditionally-present singleton. -/
theorem mem_ite_singleton {α : Type} {c : Prop} [Decidable c] {a t : α} :
    (t ∈ if c then [a] else ([] : List α)) ↔ c ∧ t = a := by
  split_ifs with h <;> simp [h]

/-- Helper for C7: explicit characterization of the neighbor list. -/
theorem mem_neighbors {cols rows i j : ℕ} {t : ℕ × ℕ} :
    t ∈ neighbors cols rows i j ↔
      (i + 1 < cols ∧ t = (i + 1, j)) ∨
      (j + 1 < rows ∧ t = (i, j + 1)) ∨
      (i + 1 < cols ∧ j + 1 < rows ∧ t = (i + 1, j + 1)) ∨
      (i + 1 < cols ∧ 1 ≤ j ∧ t = (i + 1, j - 1)) := by
  simp only [neighbors, List.mem_append, mem_ite_singleton]
  tauto

/-- Helper for C7: every source strictly precedes its neighbor targets
in the lexicographic (col, row) order. -/
theorem neighbors_src_lt {cols rows i j : ℕ} {t : ℕ × ℕ}
    (h : t ∈ neighbors cols rows i j) :
    i < t.1 ∨ (i = t.1 ∧ j < t.2) := by
  rcases mem_neighbors.mp h with ⟨_, rfl⟩ | ⟨_, rfl⟩ | ⟨_, _, rfl⟩ | ⟨_, _, rfl⟩
  · exact Or.inl (Nat.lt_succ_self i)
  · exact Or.inr ⟨rfl, Nat.lt_succ_self j⟩
  · exact Or.inl (Nat.lt_succ_self i)
  · exact Or.inl (Nat.lt_succ_self i)

/-- Helper for C7: the four candidate targets of one point are
pairwise distinct. -/
theorem neighbors_nodup (cols rows i j : ℕ) :
    (neighbors cols rows i j).Nodup := by
  simp only [neighbors]
  split_ifs <;> simp_all [List.Nodup, Prod.ext_iff] <;>
    first
      | omega
      | (rintro a b hab he; omega)
      | (refine ⟨?_, ?_, ?_⟩ <;>
          first
            | omega
            | (rintro a b hab he; omega))

/-- Helper for C7: membership in the per-frame candidate edge list. -/
theorem mem_frameEdges {cols rows i j : ℕ} {t : ℕ × ℕ} :
    ((i, j), t) ∈ frameEdges cols rows ↔
      i < cols ∧ j < rows ∧ t ∈ neighbors cols rows i j := by
  simp only [frameEdges, List.mem_flatMap, List.mem_map, List.mem_range]
  constructor
  · rintro ⟨a, ha, b, hb, t', ht', he⟩
    have h1 : a = i := congrArg (fun x => x.1.1) he
    have h2 : b = j := congrArg (fun x => x.1.2) he
    have h3 : t' = t := congrArg Prod.snd he
    subst h1; subst h2; subst h3
    exact ⟨ha, hb, ht'⟩
  · rintro ⟨hi, hj, ht⟩
    exact ⟨i, hi, j, hj, t, ht, rfl⟩

/-- Helper for C7: the source component of every frame edge. -/
theorem frameEdges_shape {cols rows : ℕ} {e : (ℕ × ℕ) × (ℕ × ℕ)}
    (h : e ∈ frameEdges cols rows) :
    e.2 ∈ neighbors cols rows e.1.1 e.1.2 := by
  obtain ⟨a, _, b, _, t', ht', rfl⟩ := by
    simpa only [frameEdges, List.mem_flatMap, List.mem_map,
      List.mem_range] using h
  exact ht'

/-- Helper for C7: the candidate edge list of one frame has no duplicate
(as ordered source-target pairs). -/
theorem frameEdges_nodup (cols rows : ℕ) :
    (frameEdges cols rows).Nodup := by
  apply List.nodup_flatMap.mpr
  refine ⟨?_, ?_⟩
  · intro i _
    apply List.nodup_flatMap.mpr
    refine ⟨?_, ?_⟩
    · intro j _
      exact (neighbors_nodup cols rows i j).map fun a b hab =>
        congrArg Prod.snd hab
    · refine (List.pairwise_lt_range rows).imp ?_
      intro a b hab x hxa hxb
      obtain ⟨t, _, rfl⟩ := List.mem_map.mp hxa
      obtain ⟨t', _, he⟩ := List.mem_map.mp hxb
      have hba : b = a := congrArg (fun y => y.1.2) he
      exact absurd hba (Nat.ne_of_gt hab)
  · refine (List.pairwise_lt_range cols).imp ?_
    intro a b hab x hxa hxb
    obtain ⟨j, _, t, _, rfl⟩ := by
      simpa only [List.mem_flatMap, List.mem_map, List.mem_range] using hxa
    obtain ⟨j', _, t', _, he⟩ := by
      simpa only [List.mem_flatMap, List.mem_map, List.mem_range] using hxb
    have hba : b = a := congrArg (fun y => y.1.1) he
    exact absurd hba (Nat.ne_of_gt hab)

/-- C7: the candidate edges of the point at `(i, j)` are exactly its
in-grid right, bottom, bottom-right and top-right neighbors, and over a
whole frame no undirected edge is ever considered from both endpoints:
all candidate edges are pairwise distinct as undirected pairs, and an
edge is in the frame list exactly when its source is an in-grid point
and its target one of that point's four neighbors. -/
theorem draw_edges_once (cols rows i j : ℕ) (t : ℕ × ℕ) :
    (t ∈ neighbors cols rows i j ↔
      (i + 1 < cols ∧ t = (i + 1, j)) ∨
      (j + 1 < rows ∧ t = (i, j + 1)) ∨
      (i + 1 < cols ∧ j + 1 < rows ∧ t = (i + 1, j + 1)) ∨
      (i + 1 < cols ∧ 1 ≤ j ∧ t = (i + 1, j - 1))) ∧
    (i < cols → j < rows → t ∈ neighbors cols rows i j →
      t.1 < cols ∧ t.2 < rows) ∧
    (((i, j), t) ∈ frameEdges cols rows ↔
      i < cols ∧ j < rows ∧ t ∈ neighbors cols rows i j) ∧
    List.Pairwise (fun e f => ¬ sameEdge e f) (frameEdges cols rows) := by
  refine ⟨mem_neighbors, ?_, mem_frameEdges, ?_⟩
  · intro hi hj ht
    rcases mem_neighbors.mp ht with ⟨h, rfl⟩ | ⟨h, rfl⟩ | ⟨h1, h2, rfl⟩ |
        ⟨h1, h2, rfl⟩
    · exact ⟨h, hj⟩
    · exact ⟨hi, h⟩
    · exact ⟨h1, h2⟩
    · exact ⟨h1, Nat.lt_of_le_of_lt (Nat.sub_le j 1) hj⟩
  · refine (frameEdges_nodup cols rows).imp_of_mem ?_
    intro e f he hf hne hsame
    rcases hsame with ⟨h1, h2⟩ | ⟨h1, h2⟩
    · exact hne (Prod.ext h1 h2)
    · have ha := neighbors_src_lt (frameEdges_shape he)
      have hb := neighbors_src_lt (frameEdges_shape hf)
      rw [h1, h2] at ha
      rcases ha with ha | ⟨ha1, ha2⟩ <;> rcases hb with hb | ⟨hb1, hb2⟩ <;>
        omega

/-- Witness for C7 at a concrete grid. -/
theorem draw_edges_once_witness :
    (((1, 0) : ℕ × ℕ).1 < 2 ∧ ((1, 0) : ℕ × ℕ).2 < 2) ∧
    (((0, 0), (1, 0)) : (ℕ × ℕ) × (ℕ × ℕ)) ∈ frameEdges 2 2 := by
  have h := draw_edges_once 2 2 0 0 (1, 0)
  refine ⟨h.2.1 (by decide) (by decide) ?_,
    h.2.2.1.mpr ⟨by decide, by decide, ?_⟩⟩ <;>
    · apply h.1.mpr
      exact Or.inl ⟨by decide, rfl⟩

end MovingWeb
